import Mathlib

/-!
Shallow embedding of the panoramisk AMI client core (src/panoramisk/message.py
and src/panoramisk/manager.py) and proofs about its specified behaviour.

Strings are handled through their underlying character lists so that every
definition evaluates by kernel reduction on concrete inputs.
-/

/-- Character-list test that the first list is an initial segment of the
second; used to embed the Python str.startswith check. -/
def startsWithL : List Char → List Char → Bool
  | [], _ => true
  | _ :: _, [] => false
  | p :: ps, c :: cs => p = c && startsWithL ps cs

/-- String wrapper for startsWithL: does s start with p. -/
def swith (s p : String) : Bool := startsWithL p.data s.data

/-- Lower-casing of a string, character by character; embeds Python str.lower
for the ASCII keys the protocol uses. -/
def toLowerS (s : String) : String := ⟨s.data.map Char.toLower⟩

/-- Splitting of a raw block into lines on the CRLF end-of-line marker.
Modelled from the spec: utils.EOL, the protocol-defined end-of-line marker
separating the header lines of a block, is not under src/; the protocol uses
CRLF. Mirrors Python line.split(EOL): non-overlapping, left to right, and the
empty string yields a single empty line. -/
def splitEOLAux : List Char → List Char → List String
  | acc, [] => [⟨acc.reverse⟩]
  | acc, '\r' :: '\n' :: rest => (⟨acc.reverse⟩ : String) :: splitEOLAux [] rest
  | acc, c :: rest => splitEOLAux (c :: acc) rest

/-- Split a string on CRLF markers. -/
def splitEOL (s : String) : List String := splitEOLAux [] s.data

/-- Split a character list at the first occurrence of a colon followed by a
space, returning the parts before and after it; none when no such occurrence
exists. Embeds Python s.split with separator colon-space and maxsplit one,
together with the membership test that guards it. -/
def splitColonSpace : List Char → Option (List Char × List Char)
  | [] => none
  | ':' :: ' ' :: rest => some ([], rest)
  | c :: rest =>
    match splitColonSpace rest with
    | none => none
    | some (a, b) => some (c :: a, b)

/-- String version of splitColonSpace. -/
def splitOnFirst (s : String) : Option (String × String) :=
  match splitColonSpace s.data with
  | none => none
  | some (a, b) => some (⟨a⟩, ⟨b⟩)

/-- Value of a hexadecimal digit, when the character is one. -/
def hexVal (c : Char) : Option Nat :=
  if '0' ≤ c ∧ c ≤ '9' then some (c.toNat - '0'.toNat)
  else if 'a' ≤ c ∧ c ≤ 'f' then some (c.toNat - 'a'.toNat + 10)
  else if 'A' ≤ c ∧ c ≤ 'F' then some (c.toNat - 'A'.toNat + 10)
  else none

/-- Percent-decoding over characters. Embeds the Python stdlib unquote used by
the decoder (an external dependency of the repository): each valid escape of a
percent sign and two hex digits becomes the character with that code point, an
invalid escape is kept verbatim. Multi-byte UTF-8 escape sequences are
modelled byte by byte; the claims and the spec examples only exercise
single-byte escapes and literal characters. -/
def percentDecode : List Char → List Char
  | [] => []
  | '%' :: h1 :: h2 :: rest =>
    match hexVal h1, hexVal h2 with
    | some a, some b => Char.ofNat (16 * a + b) :: percentDecode rest
    | _, _ => '%' :: percentDecode (h1 :: h2 :: rest)
  | c :: rest => c :: percentDecode rest

/-- Python urllib unquote on strings. -/
def unquote (s : String) : String := ⟨percentDecode s.data⟩

/-- Python urllib unquote_plus: plus signs become spaces, then percent
escapes are decoded. -/
def unquote_plus (s : String) : String :=
  ⟨percentDecode (s.data.map (fun c => if c = '+' then ' ' else c))⟩

/-- Whitespace trimming on both ends; embeds Python str.strip for the ASCII
whitespace characters. -/
def isSpaceC (c : Char) : Bool :=
  c = ' ' || c = '\t' || c = '\n' || c = '\r' || c = '\x0b' || c = '\x0c'

/-- Trim whitespace from both ends of a string. -/
def stripS (s : String) : String :=
  ⟨((s.data.dropWhile isSpaceC).reverse.dropWhile isSpaceC).reverse⟩

/-- Strip a single leading byte-order-mark character, as the decoder does to
the ReceivedSMS body. -/
def stripBOM (s : String) : String :=
  match s.data with
  | c :: rest => if c.toNat = 0xFEFF then (⟨rest⟩ : String) else s
  | [] => s

/-- Header value in the decoded header map: a scalar string, or the ordered
list a repeated key is promoted to. -/
inductive HVal where
  | str (s : String)
  | list (l : List String)
  deriving DecidableEq, Repr

/-- Message.quoted_keys from message.py. -/
def quoted_keys : List String := ["result"]

/-- Message.success_responses from message.py. -/
def success_responses : List String := ["Success", "Follows", "Goodbye"]

/-- Insertion of one key and value into the header map built by
Message.from_line. The map is a Python dict kept as an insertion-ordered
association list with exact string keys: an absent key is appended as a
scalar, a present scalar is promoted to a two-element list, a present list
gets the value appended. -/
def insertHeader : List (String × HVal) → String → String → List (String × HVal)
  | [], k, v => [(k, HVal.str v)]
  | (k0, hv) :: rest, k, v =>
    if k0 = k then
      (k0, match hv with
           | HVal.str s => HVal.list [s, v]
           | HVal.list l => HVal.list (l ++ [v])) :: rest
    else (k0, hv) :: insertHeader rest k v

/-- Parse one header line of a block: succeeds when the line contains a
colon-space separator, splitting at its first occurrence; a value under a
quoted key (lower-cased comparison) is percent-decoded and stripped. -/
def parseHeaderLine (line : String) : Option (String × String) :=
  match splitOnFirst line with
  | none => none
  | some (k, v) =>
    if quoted_keys.contains (toLowerS k) then some (k, stripS (unquote v))
    else some (k, v)

/-- One iteration of the header loop of Message.from_line: a line without a
colon-space separator is ignored, any other is split and inserted. -/
def addLine (hs : List (String × HVal)) (l : String) : List (String × HVal) :=
  match parseHeaderLine l with
  | none => hs
  | some (k, v) => insertHeader hs k v

/-- Fold the header lines of a block into the header map, as the final loop
of Message.from_line does. -/
def buildHeaders (mlines : List String) : List (String × HVal) :=
  mlines.foldl addLine []

/-- Pop the last element of a list, Python list.pop: the element and the
remaining list, or none when empty. -/
def popLast (l : List String) : Option (String × List String) :=
  match l.reverse with
  | [] => none
  | x :: r => some (x, r.reverse)

/-- Helper for the trailing-line loop, walking the reversed line list: while
the current body is empty, take the next line from the end. -/
def popUntilAux : String → List String → String × List String
  | content, [] => (content, [])
  | content, x :: rest =>
    if content = "" then popUntilAux x rest else (content, x :: rest)

/-- The while loop of Message.from_line that keeps popping trailing lines
while the body is empty and lines remain. -/
def popUntilNonEmpty (content : String) (mlines : List String) : String × List String :=
  let p := popUntilAux content mlines.reverse
  (p.1, p.2.reverse)

/-- Structured record produced by the decoder: the header map and the body.
The record the source builds is a case-insensitive mapping; modelled from the
spec: utils.CaseInsensitiveDict, an explicit case-insensitive mapping with a
get-or-default empty string accessor, is not under src/. -/
structure Message where
  headers : List (String × HVal)
  content : String
  deriving DecidableEq, Repr

/-- Case-insensitive lookup in a header map, the access path of the
case-insensitive record. -/
def lookupCI (hs : List (String × HVal)) (k : String) : Option HVal :=
  (hs.find? (fun p => toLowerS p.1 = toLowerS k)).map (fun p => p.2)

/-- Message.success from message.py: true when an event header is present
(case-insensitive membership), else true exactly when the response header is
a scalar among success_responses; a missing response reads as the empty
default and fails the membership test. -/
def Message.success (m : Message) : Bool :=
  if (lookupCI m.headers "event").isSome then true
  else
    match lookupCI m.headers "response" with
    | some (HVal.str s) => success_responses.contains s
    | _ => false

/-- Outcome of Message.from_line: a record, the None fall-through for a block
with neither an Event nor a Response header, or one of the two uncaught
errors the body extraction can raise. -/
inductive FromLineResult where
  | record (m : Message)
  | notAMessage
  | indexError
  | valueError
  deriving DecidableEq, Repr

/-- Body-extraction stage of Message.from_line, acting on the split lines:
decide from the first line whether the block carries a body, extract it
(ReceivedSMS blocks additionally split the line, percent-decode and strip a
byte-order mark), then keep popping trailing lines while the body is empty.
indexError models list.pop on an empty list, valueError the two-way unpacking
of a split without separator. -/
def bodyStep (mlines : List String) : Except FromLineResult (String × List String) :=
  let first := mlines.headD ""
  if swith first "Response: Follows" || swith first "Response: Fail" ||
      swith first "Event: ReceivedSMS" then
    if first = "Event: ReceivedSMS" then
      match popLast mlines with
      | none => Except.error FromLineResult.indexError
      | some (_, m1) =>
        match popLast m1 with
        | none => Except.error FromLineResult.indexError
        | some (c, m2) =>
          match splitOnFirst c with
          | none => Except.error FromLineResult.valueError
          | some (_, content0) =>
            let content1 := unquote_plus content0
            let content2 := stripBOM content1
            Except.ok (popUntilNonEmpty content2 m2)
    else
      match popLast mlines with
      | none => Except.error FromLineResult.indexError
      | some (c, m1) => Except.ok (popUntilNonEmpty c m1)
  else Except.ok ("", mlines)

/-- Message.from_line on the split lines of a block: extract the body, build
the header map, and classify by exact membership of the Event or Response key
in the plain dict the loop builds. -/
def from_lines (mlines : List String) : FromLineResult :=
  match bodyStep mlines with
  | Except.error e => e
  | Except.ok (content, rest) =>
    let headers := buildHeaders rest
    if headers.any (fun p => p.1 = "Event") || headers.any (fun p => p.1 = "Response") then
      FromLineResult.record ⟨headers, content⟩
    else FromLineResult.notAMessage

/-- Message.from_line from message.py: split the block on the end-of-line
marker and process the lines. -/
def from_line (line : String) : FromLineResult := from_lines (splitEOL line)

example : from_line "Event: MeetmeEnd\r\nMeetme: 4242" =
    FromLineResult.record ⟨[("Event", HVal.str "MeetmeEnd"), ("Meetme", HVal.str "4242")], ""⟩ := by
  decide

example : from_line "Event: ReceivedSMS" = FromLineResult.indexError := by decide

example : from_line "Foo: 1\r\nBar: 2" = FromLineResult.notAMessage := by decide

example : Message.success ⟨[("Response", HVal.str "Goodbye")], ""⟩ = true := by decide

/-- An action queued while disconnected, as the drain loop of
Manager.send_awaiting_actions sees it: its action-type header value, whether
its result sink is already done, and its as_list flag. -/
structure QueuedAction where
  actionName : String
  done : Bool
  as_list : Bool
  deriving DecidableEq, Repr

/-- Tasks the event loop can be asked to run later. -/
inductive MTask where
  | ping
  | connect
  deriving DecidableEq, Repr

/-- Lifecycle hooks the manager schedules. -/
inductive Hook where
  | onLogin
  | onConnect
  | onDisconnect (exc : Nat)
  deriving DecidableEq, Repr

/-- Observable effects of one manager callback, in program order: scheduling
a hook with call_soon, cancelling a timer handle, scheduling a task with
call_later after a delay, or resubmitting a queued action through
send_action. -/
inductive Effect where
  | callSoon (h : Hook)
  | cancelTimer (id : Nat)
  | callLater (id : Nat) (delay : Nat) (t : MTask)
  | sendAction (a : QueuedAction)
  deriving DecidableEq, Repr

/-- Session state of the Manager class: the fields its callbacks read and
write, with timer handles as numbered ids drawn from a counter. -/
structure Manager where
  authenticated : Bool
  authenticated_future : Option Nat
  pinger : Option Nat
  connected : Bool
  nextTimer : Nat
  ping_delay : Nat
  reconnect_timeout : Nat
  forgetable_actions : List String
  awaiting_actions : List QueuedAction
  deriving DecidableEq, Repr

/-- Manager.defaults forgetable_actions value. -/
def default_forgetable_actions : List String := ["ping", "login"]

/-- Drain loop of Manager.send_awaiting_actions: pop each queued action in
FIFO order and resubmit it through send_action with its original as_list
flag, unless its lower-cased action type is among the forgetable actions or
its result sink is already done. -/
def drainQueue (fg : List String) : List QueuedAction → List Effect
  | [] => []
  | a :: rest =>
    if fg.contains (toLowerS a.actionName) = false then
      if a.done = false then Effect.sendAction a :: drainQueue fg rest
      else drainQueue fg rest
    else drainQueue fg rest

/-- Manager.send_awaiting_actions from manager.py: empties the awaiting
queue, producing the resubmission effects of the drain loop. -/
def Manager.send_awaiting_actions (m : Manager) : Manager × List Effect :=
  ({ m with awaiting_actions := [] }, drainQueue m.forgetable_actions m.awaiting_actions)

/-- Manager.login from manager.py, run when the Login action future
resolves with record resp: clear the pending future, record authentication
as the success bit of the record, schedule the on-login hook only on
success, cancel the pinger when one exists, and schedule a fresh ping after
ping_delay. -/
def Manager.login (m : Manager) (resp : Message) : Manager × List Effect :=
  let auth := resp.success
  let loginEff : List Effect := if auth then [Effect.callSoon Hook.onLogin] else []
  let cancelEff : List Effect :=
    match m.pinger with
    | some t => [Effect.cancelTimer t]
    | none => []
  let newId := m.nextTimer
  ({ m with
      authenticated_future := none
      authenticated := auth
      pinger := some newId
      nextTimer := newId + 1 },
   loginEff ++ cancelEff ++ [Effect.callLater newId m.ping_delay MTask.ping])

/-- Manager.connection_lost from manager.py: mark the session disconnected,
schedule the on-disconnect hook with the triggering error, cancel and clear
the pinger when one exists, and schedule one reconnect attempt after
reconnect_timeout. -/
def Manager.connection_lost (m : Manager) (exc : Nat) : Manager × List Effect :=
  let cancelEff : List Effect :=
    match m.pinger with
    | some t => [Effect.cancelTimer t]
    | none => []
  let newId := m.nextTimer
  ({ m with
      connected := false
      pinger := none
      nextTimer := newId + 1 },
   Effect.callSoon (Hook.onDisconnect exc) :: cancelEff ++
     [Effect.callLater newId m.reconnect_timeout MTask.connect])

/-- Compiled glob matcher: the source pattern of re.compile applied to
fnmatch.translate. Matching embeds the composite behaviour of those two
external stdlib functions: full-string glob matching with star and question
mark wildcards, case-sensitive. -/
structure GlobMatcher where
  source : String
  deriving DecidableEq, Repr

/-- Fuel-driven glob matching over character lists; the fuel of pattern
length plus string length plus one always suffices, every step shortens
their sum. -/
def globMatchFuel : Nat → List Char → List Char → Bool
  | 0, _, _ => false
  | _ + 1, [], [] => true
  | _ + 1, [], _ :: _ => false
  | n + 1, '*' :: ps, s =>
    globMatchFuel n ps s ||
      (match s with
       | [] => false
       | _ :: s2 => globMatchFuel n ('*' :: ps) s2)
  | n + 1, '?' :: ps, _ :: s => globMatchFuel n ps s
  | _ + 1, '?' :: _, [] => false
  | n + 1, p :: ps, c :: s => p = c && globMatchFuel n ps s
  | _ + 1, _ :: _, [] => false

/-- Glob match of a pattern against a string. -/
def globMatch (pattern s : String) : Bool :=
  globMatchFuel (pattern.data.length + s.data.length + 1) pattern.data s.data

/-- Matching a compiled matcher against a string, re Pattern.match with the
full-match translation fnmatch produces. -/
def GlobMatcher.matches (m : GlobMatcher) (s : String) : Bool := globMatch m.source s

/-- Compilation of a pattern, re.compile of fnmatch.translate. -/
def compilePattern (p : String) : GlobMatcher := ⟨p⟩

/-- Event-router state of the Manager: the ordered pattern list with the
matcher compiled at registration, and the defaultdict from pattern to its
ordered callback list, with callbacks as numeric ids. -/
structure Router where
  patterns : List (String × GlobMatcher)
  callbacks : List (String × List Nat)
  deriving DecidableEq, Repr

/-- Lookup in the callbacks defaultdict: absent patterns read as the empty
list. -/
def lookupCbs (cbs : List (String × List Nat)) (p : String) : List Nat :=
  match cbs.find? (fun e => e.1 = p) with
  | some e => e.2
  | none => []

/-- Append one callback under a pattern in the defaultdict, creating the
entry at the end when absent. -/
def appendCb : List (String × List Nat) → String → Nat → List (String × List Nat)
  | [], p, cb => [(p, [cb])]
  | (q, l) :: rest, p, cb =>
    if q = p then (q, l ++ [cb]) :: rest else (q, l) :: appendCb rest p cb

/-- Registration effect: compiling a pattern. -/
inductive RegEffect where
  | compile (p : String)
  deriving DecidableEq, Repr

/-- Manager.register_event from manager.py, with the callback supplied: when
the callback list of the pattern is empty the pattern is compiled once and
appended to the pattern list, then the callback is appended to the list of
its pattern; the callback itself is returned. -/
def register_event (r : Router) (pattern : String) (cb : Nat) :
    Router × List RegEffect × Nat :=
  if lookupCbs r.callbacks pattern = [] then
    (⟨r.patterns ++ [(pattern, compilePattern pattern)], appendCb r.callbacks pattern cb⟩,
     [RegEffect.compile pattern], cb)
  else
    (⟨r.patterns, appendCb r.callbacks pattern cb⟩, [], cb)

/-- Dispatch effects, in program order: attaching the manager back-reference
to the event, then one invocation per matched callback, recording the
pattern it was registered under, the callback, and the event name passed
with the session. -/
inductive DEffect where
  | attachManager
  | invoke (pattern : String) (cb : Nat) (eventName : String)
  deriving DecidableEq, Repr

/-- Event-type name of a record, the event.event attribute read: the scalar
value of the event header, or the empty default. -/
def eventTypeName (m : Message) : String :=
  match lookupCI m.headers "event" with
  | some (HVal.str s) => s
  | _ => ""

/-- One iteration of the dispatch loop on one registered pattern: when its
compiled matcher matches the event name, the pattern joins the matches and
its callbacks are all invoked in registration order. -/
def dispatchStep (r : Router) (name : String)
    (acc : List DEffect × List String) (pm : String × GlobMatcher) :
    List DEffect × List String :=
  if pm.2.matches name then
    (acc.1 ++ (lookupCbs r.callbacks pm.1).map (fun c => DEffect.invoke pm.1 c name),
     acc.2 ++ [pm.1])
  else acc

/-- Manager.dispatch from manager.py: attach the manager to the event, then
walk the pattern list in registration order, folding the per-pattern step.
Returns the effect trace and the matched pattern list. -/
def dispatch (r : Router) (ev : Message) : List DEffect × List String :=
  r.patterns.foldl (dispatchStep r (eventTypeName ev)) ([DEffect.attachManager], [])

example : globMatch "Meetme*" "MeetmeEnd" = true := by decide
example : globMatch "Meetme*" "FullyBooted" = false := by decide
example : globMatch "Fully?ooted" "FullyBooted" = true := by decide
example :
    (Manager.send_awaiting_actions
      ⟨false, none, none, false, 0, 10, 2, default_forgetable_actions,
        [⟨"Ping", false, false⟩, ⟨"Status", false, true⟩, ⟨"Status", true, false⟩]⟩).2 =
    [Effect.sendAction ⟨"Status", false, true⟩] := by decide

/-- Drain loop characterization: the resubmission effects are exactly the
queued actions that are neither of a forgetable type nor already done, in
queue order. -/
theorem drainQueue_eq_filter (fg : List String) (q : List QueuedAction) :
    drainQueue fg q =
      (q.filter (fun a => !(fg.contains (toLowerS a.actionName)) && !a.done)).map
        Effect.sendAction := by
  induction q with
  | nil => rfl
  | cons a rest ih =>
    by_cases h1 : toLowerS a.actionName ∈ fg <;> cases h2 : a.done <;>
      simp [drainQueue, h1, h2, ih, List.filter_cons]

/-- Claim C1, counterexample: a queued Ping action whose result sink is still
pending (not abandoned) is skipped by the drain loop, although the claim says
an action is skipped only when it is forgetable AND already abandoned. -/
theorem C1_counterexample :
    (Manager.send_awaiting_actions
        ⟨false, none, none, false, 0, 10, 2, default_forgetable_actions,
          [⟨"Ping", false, false⟩]⟩).2 ≠
      (([⟨"Ping", false, false⟩] : List QueuedAction).filter
        (fun a => !(default_forgetable_actions.contains (toLowerS a.actionName) && a.done))).map
        Effect.sendAction := by
  decide

/-- Claim C1 (amended): on the fully-booted drain, the queue is emptied and
every queued action is resubmitted in FIFO order with its original as_list
flag, except that an action is skipped exactly when its lower-cased action
type is in the forgetable set OR its result sink is already done; in
particular every non-forgetable action with a pending sink is resubmitted. -/
theorem C1_send_awaiting_actions (m : Manager) :
    (Manager.send_awaiting_actions m).2 =
      (m.awaiting_actions.filter
        (fun a => !(m.forgetable_actions.contains (toLowerS a.actionName)) && !a.done)).map
        Effect.sendAction ∧
    (Manager.send_awaiting_actions m).1.awaiting_actions = [] :=
  ⟨drainQueue_eq_filter m.forgetable_actions m.awaiting_actions, rfl⟩

/-- Claim C10: the decoder is not total. A block consisting of the single
line Event: ReceivedSMS pops from an empty line list, and a ReceivedSMS block
whose extracted body line has no colon-space separator fails the two-way
unpacking of the split. -/
theorem C10_decoder_not_total :
    from_line "Event: ReceivedSMS" = FromLineResult.indexError ∧
    from_line "Event: ReceivedSMS\r\nno separator here\r\nterminator" =
      FromLineResult.valueError := by
  decide

/-- Claim C4: a record with an event header is always successful, and a
record without one is successful exactly when its response header is the
scalar Success, Follows or Goodbye. -/
theorem C4_success (m : Message) :
    ((lookupCI m.headers "event").isSome = true → m.success = true) ∧
    ((lookupCI m.headers "event").isSome = false →
      (m.success = true ↔
        lookupCI m.headers "response" ∈
          [some (HVal.str "Success"), some (HVal.str "Follows"),
            some (HVal.str "Goodbye")])) := by
  constructor
  · intro h
    simp [Message.success, h]
  · intro h
    cases hr : lookupCI m.headers "response" with
    | none => simp [Message.success, h, hr]
    | some hv =>
      cases hv with
      | str s => simp [Message.success, h, hr, success_responses]
      | list l => simp [Message.success, h, hr]

/-- Witness for claim C4 at a concrete Goodbye response record. -/
theorem C4_success_witness :
    Message.success ⟨[("Response", HVal.str "Goodbye")], ""⟩ = true :=
  ((C4_success ⟨[("Response", HVal.str "Goodbye")], ""⟩).2 (by decide)).mpr (by decide)

/-- Claim C2, counterexample: the decoder compares header keys
case-sensitively. A block whose only header line is EVENT: Foo has an event
key under case-insensitive comparison, yet the decoder classifies it as not
a message; and two header lines whose keys differ only in case stay two
separate scalar entries instead of merging into one multi-valued entry. -/
theorem C2_counterexample :
    from_line "EVENT: Foo" = FromLineResult.notAMessage ∧
    (buildHeaders ["EVENT: Foo"]).any (fun p => toLowerS p.1 = "event") = true ∧
    from_line "Event: x\r\nKey: a\r\nKEY: b" =
      FromLineResult.record
        ⟨[("Event", HVal.str "x"), ("Key", HVal.str "a"), ("KEY", HVal.str "b")], ""⟩ := by
  decide

/-- Claim C2 (amended): in the wire decoder, header-map keys are compared
case-sensitively (exact string equality): a repeated header key is merged
into one multi-valued entry exactly when it repeats with identical case (an
absent exact key is appended as a fresh scalar entry even when a case
variant is present), and a block is classified as a message if and only if
the final header map contains the exact key Event or the exact key
Response; otherwise the decoder returns not a message. -/
theorem C2_case_sensitive (mlines : List String) (content : String) (rest : List String)
    (hb : bodyStep mlines = Except.ok (content, rest)) :
    (from_lines mlines = FromLineResult.record ⟨buildHeaders rest, content⟩ ↔
      ((buildHeaders rest).any (fun p => p.1 = "Event") ||
        (buildHeaders rest).any (fun p => p.1 = "Response")) = true) ∧
    (((buildHeaders rest).any (fun p => p.1 = "Event") ||
        (buildHeaders rest).any (fun p => p.1 = "Response")) = false →
      from_lines mlines = FromLineResult.notAMessage) ∧
    (∀ hs k v, hs.any (fun p => p.1 = k) = false →
      insertHeader hs k v = hs ++ [(k, HVal.str v)]) := by
  refine ⟨?_, ?_, ?_⟩
  · cases hcond : ((buildHeaders rest).any (fun p => p.1 = "Event") ||
        (buildHeaders rest).any (fun p => p.1 = "Response")) <;>
      simp [from_lines, hb, hcond]
  · intro hcond
    simp [from_lines, hb, hcond]
  · intro hs k v h
    induction hs with
    | nil => rfl
    | cons e t ih =>
      simp only [List.any_cons, Bool.or_eq_false_iff] at h
      obtain ⟨h1, h2⟩ := h
      cases e with
      | mk k0 hv =>
        simp only [insertHeader]
        rw [if_neg]
        · simp [ih h2]
        · simpa using h1

/-- Witness for claim C2 at a concrete one-line block with an exact Event
key. -/
theorem C2_case_sensitive_witness :
    from_lines ["Event: X"] =
      FromLineResult.record ⟨buildHeaders ["Event: X"], ""⟩ :=
  ((C2_case_sensitive ["Event: X"] "" ["Event: X"] rfl).1).mpr (by decide)

/-- Exact-key lookup in the header map, the access the plain dict of
Message.from_line performs. -/
def lookupEx (hs : List (String × HVal)) (k : String) : Option HVal :=
  (hs.find? (fun p => p.1 = k)).map (fun p => p.2)

/-- Values carried by the header lines of exact key k, in line order, after
the per-line parsing (separator split and quoted-key decoding). -/
def headerValuesOf (k : String) (mlines : List String) : List String :=
  mlines.filterMap
    (fun l =>
      match parseHeaderLine l with
      | some (k0, v) => if k0 = k then some v else none
      | none => none)

/-- Effect of inserting one more value under a key on its current map entry:
absent becomes a scalar, a scalar becomes a two-element list, a list grows at
the end. -/
def combineStep : Option HVal → String → Option HVal
  | none, v => some (HVal.str v)
  | some (HVal.str s), v => some (HVal.list [s, v])
  | some (HVal.list l), v => some (HVal.list (l ++ [v]))

/-- Effect of inserting a sequence of further values under a key on its
current map entry. -/
def combineH : Option HVal → List String → Option HVal
  | o, [] => o
  | none, [v] => some (HVal.str v)
  | none, vs => some (HVal.list vs)
  | some (HVal.str s), vs => some (HVal.list (s :: vs))
  | some (HVal.list l), vs => some (HVal.list (l ++ vs))

theorem lookupEx_insert_self (hs : List (String × HVal)) (k : String) (v : String) :
    lookupEx (insertHeader hs k v) k = combineStep (lookupEx hs k) v := by
  induction hs with
  | nil => simp [insertHeader, lookupEx, combineStep, List.find?]
  | cons e t ih =>
    obtain ⟨k0, hv⟩ := e
    by_cases hk : k0 = k
    · subst hk
      cases hv <;> simp [insertHeader, lookupEx, combineStep, List.find?]
    · simp only [insertHeader, if_neg hk]
      simpa [lookupEx, List.find?, hk] using ih

theorem lookupEx_insert_other (hs : List (String × HVal)) (k1 k : String) (v : String)
    (h : k1 ≠ k) : lookupEx (insertHeader hs k1 v) k = lookupEx hs k := by
  induction hs with
  | nil => simp [insertHeader, lookupEx, List.find?, h]
  | cons e t ih =>
    obtain ⟨k0, hv⟩ := e
    by_cases hk : k0 = k1
    · subst hk
      have : ¬k0 = k := by simpa using h
      cases hv <;> simp [insertHeader, lookupEx, List.find?, this]
    · simp only [insertHeader, if_neg hk]
      by_cases hk2 : k0 = k
      · simp [lookupEx, hk2]
      · simp only [lookupEx]
        rw [List.find?_cons_of_neg _ (by simpa using hk2),
          List.find?_cons_of_neg _ (by simpa using hk2)]
        simpa [lookupEx] using ih

theorem combineH_step (o : Option HVal) (v : String) (vs : List String) :
    combineH (combineStep o v) vs = combineH o (v :: vs) := by
  cases o with
  | none => cases vs <;> simp [combineStep, combineH]
  | some hv => cases hv <;> cases vs <;> simp [combineStep, combineH]

theorem foldl_addLine_lookup (mlines : List String) (hs : List (String × HVal))
    (k : String) :
    lookupEx (mlines.foldl addLine hs) k =
      combineH (lookupEx hs k) (headerValuesOf k mlines) := by
  induction mlines generalizing hs with
  | nil => simp [headerValuesOf, combineH]
  | cons l rest ih =>
    rw [List.foldl_cons]
    cases hp : parseHeaderLine l with
    | none =>
      rw [ih]
      simp [addLine, hp, headerValuesOf]
    | some kv =>
      obtain ⟨k0, v⟩ := kv
      by_cases hk : k0 = k
      · subst hk
        rw [ih]
        simp only [addLine, hp]
        rw [lookupEx_insert_self, combineH_step]
        simp [headerValuesOf, hp]
      · rw [ih]
        simp only [addLine, hp]
        rw [lookupEx_insert_other _ _ _ _ hk]
        simp [headerValuesOf, hp, hk]

/-- Claim C3: in the header map of a decoded block, a key whose header lines
carry exactly one value maps to that scalar string, and a key carried by two
or more lines maps to the ordered list of all its values in line order; the
promotion happens on the second occurrence, so already two values form a
list. -/
theorem C3_repeated_keys (mlines : List String) (k : String) :
    ((headerValuesOf k mlines).length = 1 →
      lookupEx (buildHeaders mlines) k =
        some (HVal.str ((headerValuesOf k mlines).headD ""))) ∧
    (2 ≤ (headerValuesOf k mlines).length →
      lookupEx (buildHeaders mlines) k =
        some (HVal.list (headerValuesOf k mlines))) := by
  have hbase : lookupEx ([] : List (String × HVal)) k = none := by
    simp [lookupEx, List.find?]
  constructor
  · intro h1
    rw [buildHeaders, foldl_addLine_lookup, hbase]
    cases hv : headerValuesOf k mlines with
    | nil => rw [hv] at h1; simp at h1
    | cons a t =>
      cases t with
      | nil => simp [combineH]
      | cons b t2 => rw [hv] at h1; simp at h1
  · intro h2
    rw [buildHeaders, foldl_addLine_lookup, hbase]
    cases hv : headerValuesOf k mlines with
    | nil => rw [hv] at h2; simp at h2
    | cons a t =>
      cases t with
      | nil => rw [hv] at h2; simp at h2
      | cons b t2 => simp [combineH]

/-- Witness for claim C3 on a block with one repeated and one single key. -/
theorem C3_repeated_keys_witness :
    lookupEx (buildHeaders ["Event: T", "V: a", "V: b"]) "V" =
      some (HVal.list ["a", "b"]) := by
  have h := (C3_repeated_keys ["Event: T", "V: a", "V: b"] "V").2 (by decide)
  exact h.trans (by decide)

theorem popLast_append (l : List String) (x : String) : popLast (l ++ [x]) = some (x, l) := by
  simp [popLast, List.reverse_append]

theorem popUntilAux_of_ne (c : String) (h : c ≠ "") (l : List String) :
    popUntilAux c l = (c, l) := by
  cases l <;> simp [popUntilAux, h]

theorem popUntilNonEmpty_of_ne (c : String) (h : c ≠ "") (l : List String) :
    popUntilNonEmpty c l = (c, l) := by
  simp [popUntilNonEmpty, popUntilAux_of_ne c h]

theorem popUntilAux_skip_empty (l1 l2 : List String) (h : ∀ x ∈ l1, x = "") :
    popUntilAux "" (l1 ++ l2) = popUntilAux "" l2 := by
  induction l1 with
  | nil => rfl
  | cons a t ih =>
    have ha : a = "" := h a (List.mem_cons_self a t)
    subst ha
    simp only [List.cons_append, popUntilAux, if_pos rfl]
    exact ih (fun x hx => h x (List.mem_cons_of_mem _ hx))

theorem any_key_insertHeader (hs : List (String × HVal)) (k k1 : String) (v : String)
    (h : hs.any (fun p => p.1 = k) = true) :
    (insertHeader hs k1 v).any (fun p => p.1 = k) = true := by
  induction hs with
  | nil => simp at h
  | cons e t ih =>
    obtain ⟨k0, hv⟩ := e
    simp only [List.any_cons, Bool.or_eq_true] at h
    by_cases hk : k0 = k1
    · subst hk
      cases hv <;> simpa [insertHeader] using h
    · simp only [insertHeader, if_neg hk, List.any_cons, Bool.or_eq_true]
      rcases h with h | h
      · exact Or.inl h
      · exact Or.inr (ih h)

theorem any_key_foldl_addLine (ls : List String) (hs : List (String × HVal)) (k : String)
    (h : hs.any (fun p => p.1 = k) = true) :
    ((ls.foldl addLine hs).any (fun p => p.1 = k)) = true := by
  induction ls generalizing hs with
  | nil => simpa using h
  | cons l rest ih =>
    rw [List.foldl_cons]
    apply ih
    cases hp : parseHeaderLine l with
    | none => simpa [addLine, hp] using h
    | some kv => simpa [addLine, hp] using any_key_insertHeader hs k kv.1 kv.2 h

theorem buildHeaders_sms_event (rest : List String) :
    (buildHeaders ("Event: ReceivedSMS" :: rest)).any (fun p => p.1 = "Event") = true := by
  rw [buildHeaders, List.foldl_cons]
  apply any_key_foldl_addLine
  decide

/-- Body extraction of a ReceivedSMS block: the last line is discarded, the
new last line is split at its first colon-space, the part after it is
percent-decoded with plus-as-space decoding and stripped of one leading
byte-order mark, and then trailing lines are popped while the body is
empty. -/
theorem bodyStep_sms (rest : List String) (bodyLine term lbl enc : String)
    (hsplit : splitOnFirst bodyLine = some (lbl, enc)) :
    bodyStep ("Event: ReceivedSMS" :: rest ++ [bodyLine, term]) =
      Except.ok (popUntilNonEmpty (stripBOM (unquote_plus enc))
        ("Event: ReceivedSMS" :: rest)) := by
  have hl1 : "Event: ReceivedSMS" :: rest ++ [bodyLine, term] =
      (("Event: ReceivedSMS" :: rest) ++ [bodyLine]) ++ [term] := by simp
  have hhead : ("Event: ReceivedSMS" :: rest ++ [bodyLine, term]).headD "" =
      "Event: ReceivedSMS" := rfl
  have hc1 : swith "Event: ReceivedSMS" "Response: Follows" = false := by decide
  have hc2 : swith "Event: ReceivedSMS" "Response: Fail" = false := by decide
  have hc3 : swith "Event: ReceivedSMS" "Event: ReceivedSMS" = true := by decide
  have hp1 : popLast ("Event: ReceivedSMS" :: rest ++ [bodyLine, term]) =
      some (term, ("Event: ReceivedSMS" :: rest) ++ [bodyLine]) := by
    rw [hl1]; exact popLast_append _ _
  have hp2 : popLast (("Event: ReceivedSMS" :: rest) ++ [bodyLine]) =
      some (bodyLine, "Event: ReceivedSMS" :: rest) := popLast_append _ _
  simp only [bodyStep, hhead, hc1, hc2, hc3, Bool.false_or, if_pos rfl, hp1, hp2, hsplit]
  simp

/-- Claim C5: for a block whose first line is exactly Event: ReceivedSMS, the
decoder discards the trailing line, takes the body from the new last line as
the part after the first colon-space, percent-decodes it with plus-as-space
decoding and strips one leading byte-order mark; when that body is non-empty
the record carries it together with the headers of the remaining lines, and
when it is empty the decoder pops trailing lines until a non-empty body is
found, which becomes the record body verbatim. -/
theorem C5_received_sms (rest : List String) (bodyLine term lbl enc : String)
    (hsplit : splitOnFirst bodyLine = some (lbl, enc)) :
    (stripBOM (unquote_plus enc) ≠ "" →
      from_lines ("Event: ReceivedSMS" :: rest ++ [bodyLine, term]) =
        FromLineResult.record ⟨buildHeaders ("Event: ReceivedSMS" :: rest),
          stripBOM (unquote_plus enc)⟩) ∧
    (stripBOM (unquote_plus enc) = "" →
      ∀ pre lastNE mid, rest = pre ++ lastNE :: mid → lastNE ≠ "" →
        (∀ x ∈ mid, x = "") →
        from_lines ("Event: ReceivedSMS" :: rest ++ [bodyLine, term]) =
          FromLineResult.record ⟨buildHeaders ("Event: ReceivedSMS" :: pre), lastNE⟩) := by
  constructor
  · intro hne
    rw [from_lines, bodyStep_sms rest bodyLine term lbl enc hsplit,
      popUntilNonEmpty_of_ne _ hne]
    simp [buildHeaders_sms_event rest]
  · intro hemp pre lastNE mid hrest hne hmid
    subst hrest
    have hpops : popUntilNonEmpty "" ("Event: ReceivedSMS" :: (pre ++ lastNE :: mid)) =
        (lastNE, "Event: ReceivedSMS" :: pre) := by
      have hrev : ("Event: ReceivedSMS" :: (pre ++ lastNE :: mid)).reverse =
          mid.reverse ++ lastNE :: (pre.reverse ++ ["Event: ReceivedSMS"]) := by
        simp
      rw [popUntilNonEmpty, hrev]
      have hmidrev : ∀ x ∈ mid.reverse, x = "" := by
        intro x hx
        exact hmid x (List.mem_reverse.mp hx)
      rw [popUntilAux_skip_empty mid.reverse _ hmidrev]
      simp only [popUntilAux, if_pos rfl]
      rw [popUntilAux_of_ne lastNE hne]
      simp
    rw [from_lines, bodyStep_sms (pre ++ lastNE :: mid) bodyLine term lbl enc hsplit,
      hemp, hpops]
    simp [buildHeaders_sms_event pre]

/-- Witness for claim C5 on a concrete ReceivedSMS block with plus-as-space
and percent escapes in the body line. -/
theorem C5_received_sms_witness :
    from_lines ["Event: ReceivedSMS", "From: 123", "Message: %68i+there", ""] =
      FromLineResult.record
        ⟨[("Event", HVal.str "ReceivedSMS"), ("From", HVal.str "123")], "hi there"⟩ := by
  have h := (C5_received_sms ["From: 123"] "Message: %68i+there" "" "Message" "%68i+there"
    (by decide)).1 (by decide)
  exact h.trans (by decide)

/-- Claim C6: when the Login action resolves with a record, authentication is
recorded as exactly the success bit of the record, the on-login hook is
scheduled exactly once on success and never on failure, any existing
keepalive timer is cancelled before the reschedule, and a fresh keepalive is
scheduled after the initial ping delay independently of the outcome. -/
theorem C6_login (m : Manager) (resp : Message) :
    ((Manager.login m resp).1.authenticated = resp.success) ∧
    (resp.success = true →
      (Manager.login m resp).2.count (Effect.callSoon Hook.onLogin) = 1) ∧
    (resp.success = false →
      Effect.callSoon Hook.onLogin ∉ (Manager.login m resp).2) ∧
    (∀ t, m.pinger = some t →
      ∃ l1 l2, (Manager.login m resp).2 =
        l1 ++ Effect.cancelTimer t ::
          Effect.callLater m.nextTimer m.ping_delay MTask.ping :: l2) ∧
    ((Manager.login m resp).1.pinger = some m.nextTimer ∧
      Effect.callLater m.nextTimer m.ping_delay MTask.ping ∈ (Manager.login m resp).2) := by
  refine ⟨rfl, ?_, ?_, ?_, rfl, ?_⟩
  · intro hs
    cases hp : m.pinger <;> simp [Manager.login, hs, hp, List.count_cons]
  · intro hs
    cases hp : m.pinger <;> simp [Manager.login, hs, hp]
  · intro t ht
    cases hs : resp.success
    · exact ⟨[], [], by simp [Manager.login, hs, ht]⟩
    · exact ⟨[Effect.callSoon Hook.onLogin], [], by simp [Manager.login, hs, ht]⟩
  · cases hs : resp.success <;> cases hp : m.pinger <;> simp [Manager.login, hs, hp]

/-- Witness for claim C6 at a successful login with an existing keepalive
timer. -/
theorem C6_login_witness :
    ((Manager.login ⟨false, some 1, some 7, true, 3, 10, 2, default_forgetable_actions, []⟩
        ⟨[("Response", HVal.str "Success")], ""⟩).1.authenticated = true) ∧
    ((Manager.login ⟨false, some 1, some 7, true, 3, 10, 2, default_forgetable_actions, []⟩
        ⟨[("Response", HVal.str "Success")], ""⟩).2.count
          (Effect.callSoon Hook.onLogin) = 1) ∧
    (∃ l1 l2,
      (Manager.login ⟨false, some 1, some 7, true, 3, 10, 2, default_forgetable_actions, []⟩
        ⟨[("Response", HVal.str "Success")], ""⟩).2 =
      l1 ++ Effect.cancelTimer 7 :: Effect.callLater 3 10 MTask.ping :: l2) := by
  have h := C6_login ⟨false, some 1, some 7, true, 3, 10, 2, default_forgetable_actions, []⟩
    ⟨[("Response", HVal.str "Success")], ""⟩
  exact ⟨h.1.trans (by decide), h.2.1 (by decide), h.2.2.2.1 7 rfl⟩

/-- Bool test that an effect schedules the reconnect task. -/
def isConnectSchedule : Effect → Bool
  | Effect.callLater _ _ MTask.connect => true
  | _ => false

/-- Claim C7: on a connection-loss notification the session is marked
disconnected, the on-disconnect hook is scheduled with the triggering error,
exactly one reconnect attempt is scheduled, after the configured reconnect
timeout, and when a keepalive timer exists its cancellation comes before the
reconnect scheduling; the callback is total, no exception escapes. -/
theorem C7_connection_lost (m : Manager) (exc : Nat) :
    ((Manager.connection_lost m exc).1.connected = false) ∧
    (Effect.callSoon (Hook.onDisconnect exc) ∈ (Manager.connection_lost m exc).2) ∧
    ((Manager.connection_lost m exc).2.countP isConnectSchedule = 1) ∧
    (Effect.callLater m.nextTimer m.reconnect_timeout MTask.connect ∈
      (Manager.connection_lost m exc).2) ∧
    (∀ t, m.pinger = some t →
      ∃ l1 l2 l3, (Manager.connection_lost m exc).2 =
        l1 ++ Effect.cancelTimer t :: l2 ++
          Effect.callLater m.nextTimer m.reconnect_timeout MTask.connect :: l3) := by
  refine ⟨rfl, ?_, ?_, ?_, ?_⟩
  · cases hp : m.pinger <;> simp [Manager.connection_lost, hp]
  · cases hp : m.pinger <;>
      simp [Manager.connection_lost, hp, List.countP_cons, isConnectSchedule]
  · cases hp : m.pinger <;> simp [Manager.connection_lost, hp]
  · intro t ht
    exact ⟨[Effect.callSoon (Hook.onDisconnect exc)], [], [],
      by simp [Manager.connection_lost, ht]⟩

/-- Witness for claim C7 at a concrete state with a live keepalive timer. -/
theorem C7_connection_lost_witness :
    ((Manager.connection_lost
        ⟨true, none, some 5, true, 9, 10, 2, default_forgetable_actions, []⟩ 42).1.connected
      = false) ∧
    ((Manager.connection_lost
        ⟨true, none, some 5, true, 9, 10, 2, default_forgetable_actions, []⟩ 42).2.countP
          isConnectSchedule = 1) ∧
    (∃ l1 l2 l3,
      (Manager.connection_lost
        ⟨true, none, some 5, true, 9, 10, 2, default_forgetable_actions, []⟩ 42).2 =
      l1 ++ Effect.cancelTimer 5 :: l2 ++ Effect.callLater 9 2 MTask.connect :: l3) := by
  have h := C7_connection_lost
    ⟨true, none, some 5, true, 9, 10, 2, default_forgetable_actions, []⟩ 42
  exact ⟨h.1, h.2.2.1, h.2.2.2.2 5 rfl⟩

theorem foldl_dispatchStep (r : Router) (name : String)
    (ps : List (String × GlobMatcher)) (accE : List DEffect) (accM : List String) :
    ps.foldl (dispatchStep r name) (accE, accM) =
      (accE ++ (ps.filter (fun pm => pm.2.matches name)).flatMap
          (fun pm => (lookupCbs r.callbacks pm.1).map (fun c => DEffect.invoke pm.1 c name)),
       accM ++ (ps.filter (fun pm => pm.2.matches name)).map (fun pm => pm.1)) := by
  induction ps generalizing accE accM with
  | nil => simp
  | cons q t ih =>
    rw [List.foldl_cons]
    cases hm : q.2.matches name <;>
      simp [dispatchStep, hm, List.filter_cons, ih, List.flatMap_cons]

theorem count_invoke_map_self (cbl : List Nat) (p n : String) (c : Nat) :
    (cbl.map (fun cb => DEffect.invoke p cb n)).count (DEffect.invoke p c n) =
      cbl.count c := by
  induction cbl with
  | nil => rfl
  | cons a t ih =>
    by_cases hc : a = c <;> simp [List.count_cons, ih, hc]

theorem count_invoke_map_ne (cbl : List Nat) (p q n : String) (c : Nat) (h : q ≠ p) :
    (cbl.map (fun cb => DEffect.invoke q cb n)).count (DEffect.invoke p c n) = 0 := by
  rw [List.count_eq_zero]
  intro hmem
  obtain ⟨cb, _, heq⟩ := List.mem_map.mp hmem
  exact h (congrArg (fun e => match e with
    | DEffect.invoke a _ _ => a
    | _ => "") heq)

theorem count_invoke_bind_zero (cbs : List (String × List Nat)) (name : String)
    (t : List (String × GlobMatcher)) (p : String) (c : Nat)
    (h : p ∉ t.map (fun pm => pm.1)) :
    ((t.flatMap (fun pm => (lookupCbs cbs pm.1).map
        (fun cb => DEffect.invoke pm.1 cb name))).count (DEffect.invoke p c name)) = 0 := by
  rw [List.count_eq_zero]
  intro hmem
  obtain ⟨pm, hpm, hin⟩ := List.mem_flatMap.mp hmem
  obtain ⟨cb, _, heq⟩ := List.mem_map.mp hin
  apply h
  rw [List.mem_map]
  refine ⟨pm, hpm, ?_⟩
  exact congrArg (fun e => match e with
    | DEffect.invoke a _ _ => a
    | _ => "") heq

theorem count_invoke_bind (cbs : List (String × List Nat)) (name : String)
    (l : List (String × GlobMatcher)) (hnd : (l.map (fun pm => pm.1)).Nodup)
    (pm0 : String × GlobMatcher) (hmem : pm0 ∈ l) (c : Nat) :
    ((l.flatMap (fun pm => (lookupCbs cbs pm.1).map
        (fun cb => DEffect.invoke pm.1 cb name))).count (DEffect.invoke pm0.1 c name)) =
      (lookupCbs cbs pm0.1).count c := by
  induction l with
  | nil => cases hmem
  | cons q t ih =>
    have hnd2 : (q.1 ∉ t.map (fun pm => pm.1)) ∧ (t.map (fun pm => pm.1)).Nodup := by
      simpa [List.nodup_cons] using hnd
    rw [List.flatMap_cons, List.count_append]
    rcases List.mem_cons.mp hmem with heq | hmem2
    · subst heq
      rw [count_invoke_map_self, count_invoke_bind_zero cbs name t pm0.1 c hnd2.1]
      simp
    · have hin : pm0.1 ∈ t.map (fun pm => pm.1) := List.mem_map.mpr ⟨pm0, hmem2, rfl⟩
      have hne : q.1 ≠ pm0.1 := fun hq => hnd2.1 (hq ▸ hin)
      rw [count_invoke_map_ne _ _ _ _ _ hne, ih hnd2.2 hmem2]
      simp

/-- Claim C8: dispatch first attaches the owning session to the event, then
tests the event type name against each compiled matcher in registration
order; the matched patterns are returned in that order, the effect trace is
the attach step followed by the invocations of every callback of each
matched pattern in callback-registration order with the event, and when the
registered patterns are distinct every callback of a matched pattern is
invoked exactly as often as it is registered under it, each single
registration exactly once. -/
theorem C8_dispatch (r : Router) (ev : Message)
    (hnd : (r.patterns.map (fun pm => pm.1)).Nodup) :
    ((dispatch r ev).2 =
      (r.patterns.filter (fun pm => pm.2.matches (eventTypeName ev))).map
        (fun pm => pm.1)) ∧
    ((dispatch r ev).1 =
      DEffect.attachManager ::
        (r.patterns.filter (fun pm => pm.2.matches (eventTypeName ev))).flatMap
          (fun pm => (lookupCbs r.callbacks pm.1).map
            (fun c => DEffect.invoke pm.1 c (eventTypeName ev)))) ∧
    (∀ pm ∈ r.patterns, pm.2.matches (eventTypeName ev) = true → ∀ c,
      (dispatch r ev).1.count (DEffect.invoke pm.1 c (eventTypeName ev)) =
        (lookupCbs r.callbacks pm.1).count c) := by
  have hfold := foldl_dispatchStep r (eventTypeName ev) r.patterns [DEffect.attachManager] []
  refine ⟨?_, ?_, ?_⟩
  · rw [dispatch, hfold]
    rfl
  · rw [dispatch, hfold]
    rfl
  · intro pm hpm hm c
    rw [dispatch, hfold]
    have hndf : ((r.patterns.filter
        (fun pm => pm.2.matches (eventTypeName ev))).map (fun pm => pm.1)).Nodup :=
      hnd.sublist (List.Sublist.map _ (List.filter_sublist _))
    have hmemf : pm ∈ r.patterns.filter (fun pm => pm.2.matches (eventTypeName ev)) :=
      List.mem_filter.mpr ⟨hpm, by simpa using hm⟩
    have hbind := count_invoke_bind r.callbacks (eventTypeName ev)
      (r.patterns.filter (fun pm => pm.2.matches (eventTypeName ev))) hndf pm hmemf c
    simpa [List.count_cons] using hbind

/-- Witness for claim C8 on a router with two overlapping glob patterns. -/
theorem C8_dispatch_witness :
    (dispatch
      ⟨[("Meetme*", compilePattern "Meetme*"), ("*", compilePattern "*")],
        [("Meetme*", [1]), ("*", [2, 3])]⟩
      ⟨[("Event", HVal.str "MeetmeEnd")], ""⟩).2 = ["Meetme*", "*"] ∧
    (dispatch
      ⟨[("Meetme*", compilePattern "Meetme*"), ("*", compilePattern "*")],
        [("Meetme*", [1]), ("*", [2, 3])]⟩
      ⟨[("Event", HVal.str "MeetmeEnd")], ""⟩).1.count
        (DEffect.invoke "*" 2 "MeetmeEnd") = 1 := by
  have h := C8_dispatch
    ⟨[("Meetme*", compilePattern "Meetme*"), ("*", compilePattern "*")],
      [("Meetme*", [1]), ("*", [2, 3])]⟩
    ⟨[("Event", HVal.str "MeetmeEnd")], ""⟩ (by decide)
  refine ⟨h.1.trans (by decide), ?_⟩
  have h2 := h.2.2 ("*", compilePattern "*") (by decide) (by decide) 2
  exact h2.trans (by decide)

theorem lookupCbs_appendCb_self (cbs : List (String × List Nat)) (p : String) (cb : Nat) :
    lookupCbs (appendCb cbs p cb) p = lookupCbs cbs p ++ [cb] := by
  induction cbs with
  | nil => simp [appendCb, lookupCbs, List.find?]
  | cons e t ih =>
    obtain ⟨q, l⟩ := e
    by_cases hq : q = p
    · subst hq
      simp [appendCb, lookupCbs, List.find?]
    · simp only [appendCb, if_neg hq]
      simpa [lookupCbs, List.find?, hq] using ih

theorem lookupCbs_appendCb_other (cbs : List (String × List Nat)) (p q : String) (cb : Nat)
    (h : q ≠ p) : lookupCbs (appendCb cbs p cb) q = lookupCbs cbs q := by
  induction cbs with
  | nil => simp [appendCb, lookupCbs, List.find?, Ne.symm h]
  | cons e t ih =>
    obtain ⟨q0, l⟩ := e
    by_cases hq : q0 = p
    · subst hq
      have : ¬q0 = q := fun hh => h hh.symm
      simp [appendCb, lookupCbs, List.find?, this]
    · simp only [appendCb, if_neg hq]
      by_cases hq2 : q0 = q
      · simp [lookupCbs, List.find?, hq2]
      · simp only [lookupCbs]
        rw [List.find?_cons_of_neg _ (by simpa using hq2),
          List.find?_cons_of_neg _ (by simpa using hq2)]
        simpa [lookupCbs] using ih

/-- Router well-formedness: the registered pattern strings are distinct (one
subscription entry per distinct pattern string), and a pattern is registered
exactly when its callback list is non-empty. -/
def RouterWF (r : Router) : Prop :=
  (r.patterns.map (fun pm => pm.1)).Nodup ∧
  ∀ q, (q ∈ r.patterns.map (fun pm => pm.1) ↔ lookupCbs r.callbacks q ≠ [])

/-- Claim C9: registering under a new pattern compiles the matcher exactly
once and appends one subscription entry; registering under a known pattern
appends the callback to the existing list, leaves the pattern list unchanged
and compiles nothing; other patterns are untouched, the callback is returned
unchanged, and well-formedness (one entry per distinct pattern string) is
preserved. -/
theorem C9_register_event (r : Router) (p : String) (cb : Nat) :
    ((register_event r p cb).2.2 = cb) ∧
    (lookupCbs r.callbacks p = [] →
      (register_event r p cb).1.patterns = r.patterns ++ [(p, compilePattern p)] ∧
      (register_event r p cb).2.1 = [RegEffect.compile p] ∧
      lookupCbs (register_event r p cb).1.callbacks p = [cb]) ∧
    (lookupCbs r.callbacks p ≠ [] →
      (register_event r p cb).1.patterns = r.patterns ∧
      (register_event r p cb).2.1 = [] ∧
      lookupCbs (register_event r p cb).1.callbacks p = lookupCbs r.callbacks p ++ [cb]) ∧
    (∀ q, q ≠ p →
      lookupCbs (register_event r p cb).1.callbacks q = lookupCbs r.callbacks q) ∧
    (RouterWF r → RouterWF (register_event r p cb).1) := by
  refine ⟨?_, ?_, ?_, ?_, ?_⟩
  · by_cases h : lookupCbs r.callbacks p = [] <;> simp [register_event, h]
  · intro h
    simp [register_event, h, lookupCbs_appendCb_self]
  · intro h
    simp [register_event, h, lookupCbs_appendCb_self]
  · intro q hq
    by_cases h : lookupCbs r.callbacks p = [] <;>
      simp [register_event, h, lookupCbs_appendCb_other r.callbacks p q cb hq]
  · intro hwf
    obtain ⟨hnd, hiff⟩ := hwf
    by_cases h : lookupCbs r.callbacks p = []
    · have hre : (register_event r p cb).1 =
          ⟨r.patterns ++ [(p, compilePattern p)], appendCb r.callbacks p cb⟩ := by
        simp [register_event, h]
      have hnotin : p ∉ r.patterns.map (fun pm => pm.1) := fun hin => (hiff p).mp hin h
      rw [hre]
      refine ⟨?_, ?_⟩
      · show ((r.patterns ++ [(p, compilePattern p)]).map (fun pm => pm.1)).Nodup
        have hn : (r.patterns.map (fun pm => pm.1) ++ [p]).Nodup := by
          rw [List.nodup_append]
          refine ⟨hnd, List.nodup_singleton p, ?_⟩
          intro a ha hpa
          rw [List.mem_singleton] at hpa
          subst hpa
          exact hnotin ha
        simpa using hn
      · intro q
        show q ∈ (r.patterns ++ [(p, compilePattern p)]).map (fun pm => pm.1) ↔
          lookupCbs (appendCb r.callbacks p cb) q ≠ []
        rw [List.map_append, List.mem_append]
        by_cases hq : q = p
        · subst hq
          rw [lookupCbs_appendCb_self, h]
          simp
        · rw [lookupCbs_appendCb_other r.callbacks p q cb hq]
          constructor
          · intro hin
            rcases hin with hin1 | hin2
            · exact (hiff q).mp hin1
            · exact absurd (by simpa using hin2) hq
          · intro hne
            exact Or.inl ((hiff q).mpr hne)
    · have hre : (register_event r p cb).1 =
          ⟨r.patterns, appendCb r.callbacks p cb⟩ := by
        simp [register_event, h]
      rw [hre]
      refine ⟨hnd, ?_⟩
      intro q
      show q ∈ r.patterns.map (fun pm => pm.1) ↔
        lookupCbs (appendCb r.callbacks p cb) q ≠ []
      by_cases hq : q = p
      · subst hq
        rw [lookupCbs_appendCb_self]
        constructor
        · intro _
          simp
        · intro _
          exact (hiff q).mpr h
      · rw [lookupCbs_appendCb_other r.callbacks p q cb hq]
        exact hiff q

/-- Witness for claim C9: registering twice under the same pattern on an
empty router compiles once and accumulates both callbacks in order. -/
theorem C9_register_event_witness :
    ((register_event ⟨[], []⟩ "Meetme*" 1).1.patterns =
      [("Meetme*", compilePattern "Meetme*")]) ∧
    ((register_event ⟨[], []⟩ "Meetme*" 1).2.1 = [RegEffect.compile "Meetme*"]) ∧
    ((register_event (register_event ⟨[], []⟩ "Meetme*" 1).1 "Meetme*" 2).1.patterns =
      [("Meetme*", compilePattern "Meetme*")]) ∧
    ((register_event (register_event ⟨[], []⟩ "Meetme*" 1).1 "Meetme*" 2).2.1 = []) ∧
    (lookupCbs (register_event (register_event ⟨[], []⟩ "Meetme*" 1).1 "Meetme*"
      2).1.callbacks "Meetme*" = [1, 2]) := by
  have h1 := (C9_register_event ⟨[], []⟩ "Meetme*" 1).2.1 (by decide)
  have h2 := (C9_register_event (register_event ⟨[], []⟩ "Meetme*" 1).1 "Meetme*" 2).2.2.1
    (by decide)
  refine ⟨h1.1.trans (by decide), h1.2.1, h2.1.trans ?_, h2.2.1, h2.2.2.trans (by decide)⟩
  exact (h1.1.trans (by decide))
